import Mathlib

/-!
# Invoice totals calculator and book use case

Shallow embedding of `unittest3/lib/invoice.go` (`RoundPercent`, `CalculateTotals`)
and of `api1/internal/usecase/book_usecase.go` (`CreateBook`).

Go's `int64` values are modelled as integers in the range `[-2^63, 2^63)`; every
arithmetic operation of the source is followed by `wrap64`, the two's-complement
reduction Go performs on overflow.  Go's `/` on integers truncates toward zero,
which is `Int.tdiv`.  The `int` percentage arguments are taken on a 64-bit
platform, where `int64(pct)` is the identity.
-/

namespace Invoice

/-! ## Machine integers -/

/-- Largest `int64` value, `2^63 - 1`. -/
def maxInt64 : Int := 9223372036854775807

/-- Smallest `int64` value, `-2^63`. -/
def minInt64 : Int := -9223372036854775808

/-- An integer is representable as a Go `int64`. -/
def isInt64 (x : Int) : Prop := minInt64 ≤ x ∧ x ≤ maxInt64

instance (x : Int) : Decidable (isInt64 x) := by
  unfold isInt64; exact inferInstance

/-- Two's-complement reduction of an integer to the `int64` range. -/
def wrap64 (x : Int) : Int :=
  (x + 9223372036854775808) % 18446744073709551616 - 9223372036854775808

/-- Go `a + b` on `int64`. -/
def add64 (a b : Int) : Int := wrap64 (a + b)

/-- Go `a - b` on `int64`. -/
def sub64 (a b : Int) : Int := wrap64 (a - b)

/-- Go `a * b` on `int64`. -/
def mul64 (a b : Int) : Int := wrap64 (a * b)

/-- Go `a / b` on `int64` for a non-zero divisor: the quotient truncated toward zero. -/
def div64 (a b : Int) : Int := wrap64 (Int.tdiv a b)

/-! ## Data model -/

/-- A purchasable line item (`type Item struct`); both fields are `int64`. -/
structure Item where
  Qty : Int
  UnitPriceCents : Int
deriving DecidableEq, Repr

/-- The derived amounts (`type Totals struct`). -/
structure Totals where
  Subtotal : Int
  Discount : Int
  Tax : Int
  Total : Int
deriving DecidableEq, Repr

/-! ## Operations -/

/-- `RoundPercent` of `invoice.go`: `amount * pct / 100`, adding 50 before the
truncating division; returns 0 at once when `pct <= 0` or `amount == 0`. -/
def RoundPercent (amount pct : Int) : Int :=
  if pct ≤ 0 ∨ amount = 0 then 0
  else
    let raw := mul64 amount pct
    div64 (add64 raw 50) 100

/-- One iteration of the `for _, it := range items` loop of `CalculateTotals`. -/
def subtotalStep (subtotal : Int) (it : Item) : Int :=
  if it.Qty ≤ 0 ∨ it.UnitPriceCents < 0 then subtotal
  else add64 subtotal (mul64 it.Qty it.UnitPriceCents)

/-- The loop of `CalculateTotals`, started from `var subtotal Money` (zero). -/
def subtotalLoop (items : List Item) : Int :=
  items.foldl subtotalStep 0

/-- The tax base of `CalculateTotals`: `subtotal - discount`, reset to 0 when negative. -/
def taxBase (subtotal discount : Int) : Int :=
  let tb := sub64 subtotal discount
  if tb < 0 then 0 else tb

/-- `CalculateTotals` of `invoice.go`. -/
def CalculateTotals (items : List Item) (discountPct taxPct : Int) : Totals :=
  let subtotal := subtotalLoop items
  let discount := RoundPercent subtotal discountPct
  let tb := taxBase subtotal discount
  let tax := RoundPercent tb taxPct
  let total := add64 (sub64 subtotal discount) tax
  { Subtotal := subtotal, Discount := discount, Tax := tax, Total := total }

/-! ## The call on shared memory

A Go slice is passed by reference to its backing array, so a call could change
the caller's items.  Here the backing array is threaded through the execution:
the `range` loop runs over the indices `0 .. len(items) - 1`, copies `items[i]`
into the loop variable `it`, and the state after the call is returned with the
result.
-/

/-- One iteration of `for _, it := range items` at index `i`, on the pair of the
local `subtotal` and the backing array: `it` is a copy of element `i`, the body
updates `subtotal` only. -/
def rangeBody (st : Int × List Item) (i : Nat) : Int × List Item :=
  match st.2[i]? with
  | some it => (subtotalStep st.1 it, st.2)
  | none => st

/-- The loop of `CalculateTotals` run on the backing array `mem`: the final
`subtotal` and the array after the loop. -/
def subtotalLoopMem (mem : List Item) : Int × List Item :=
  (List.range mem.length).foldl rangeBody (0, mem)

/-- `CalculateTotals` as a call on the memory holding the items: the returned
`Totals` and the backing array after the call. -/
def CalculateTotalsMem (mem : List Item) (discountPct taxPct : Int) : Totals × List Item :=
  let out := subtotalLoopMem mem
  let subtotal := out.1
  let discount := RoundPercent subtotal discountPct
  let tb := taxBase subtotal discount
  let tax := RoundPercent tb taxPct
  let total := add64 (sub64 subtotal discount) tax
  ({ Subtotal := subtotal, Discount := discount, Tax := tax, Total := total }, out.2)

/-! ## Specification-side notions -/

/-- A line item counts toward the subtotal: `Qty > 0` and `UnitPriceCents >= 0`. -/
def Item.valid (it : Item) : Bool :=
  decide (0 < it.Qty) && decide (0 ≤ it.UnitPriceCents)

/-- Sum of `Qty * UnitPriceCents` over the valid items, in unbounded integers. -/
def validSum (items : List Item) : Int :=
  ((items.filter Item.valid).map (fun it => it.Qty * it.UnitPriceCents)).sum

/-- The formula of `RoundPercent` evaluated over unbounded integers: the same
branches, product, shift by 50 and truncating division, with no reduction to
64 bits. -/
def RoundPercentUnbounded (amount pct : Int) : Int :=
  if pct ≤ 0 ∨ amount = 0 then 0
  else Int.tdiv (amount * pct + 50) 100

end Invoice

namespace Usecase

/-! ## Book use case: data model

Go strings are modelled by Lean strings (sequences of Unicode code points), Go
`error` values by `GoError`, and `time.Time` by the number of nanoseconds since
the zero time instant.  A `*domain.Book` is an `Option Book` (`none` is `nil`):
the value the pointer refers to.  Since the repository may keep the pointer it
returns, a repository also says what an assignment through that pointer does to
its own state (`CreateResult.store`).
-/

/-- Go `unicode.IsSpace`: the Unicode White_Space code points. -/
def isSpace (c : Char) : Bool :=
  let n := c.toNat
  (decide (9 ≤ n) && decide (n ≤ 13)) || n == 32 || n == 0x85 || n == 0xA0 || n == 0x1680
    || (decide (0x2000 ≤ n) && decide (n ≤ 0x200A)) || n == 0x2028 || n == 0x2029
    || n == 0x202F || n == 0x205F || n == 0x3000

/-- Go `strings.TrimSpace` on a sequence of runes: drop the leading white space,
then the trailing white space. -/
def trimRunes (l : List Char) : List Char :=
  ((l.dropWhile isSpace).reverse.dropWhile isSpace).reverse

/-- Go `strings.TrimSpace`. -/
def TrimSpace (s : String) : String := ⟨trimRunes s.data⟩

/-- A Go `error` value.  `ErrValidation` is the package variable
`usecase.ErrValidation`; every other error value is `other`, told apart by an
identity and carrying its message. -/
inductive GoError where
  | ErrValidation
  | other (ident : Nat) (msg : String)
deriving DecidableEq, Repr

/-- The `Error()` method. -/
def GoError.Error : GoError → String
  | .ErrValidation => "validation error"
  | .other _ msg => msg

/-- A `time.Time`, as nanoseconds since the zero time instant. -/
structure Time where
  nanos : Int
deriving DecidableEq, Repr

/-- The `IsZero` method of `time.Time`. -/
def Time.IsZero (t : Time) : Bool := t.nanos == 0

/-- `domain.CreateBookInput`. -/
structure CreateBookInput where
  Title : String
  Author : String
deriving DecidableEq, Repr

/-- `domain.Book`. -/
structure Book where
  ID : Int
  Title : String
  Author : String
  CreatedAt : Time
deriving DecidableEq, Repr

/-- What `BookRepository.Create` returns: a `*Book` and an `error`.  `book` is
the value the returned pointer refers to when `Create` returns (`none` for a nil
pointer); `store b` is the assignment `*book = b` through that pointer, as a
change of the repository state `σ`, which may hold the same pointer (it is the
identity when the repository keeps no reference to the book). -/
structure CreateResult (σ : Type) where
  book : Option Book
  err : Option GoError
  store : Book → σ → σ

/-- An implementation of the interface `domain.BookRepository` over a repository
state `σ`: `Create` maps the input and the state to its result and the new state. -/
def BookRepository (σ : Type) : Type := CreateBookInput → σ → CreateResult σ × σ

/-- The state threaded through the use case: the repository's own state and the
log of the arguments of every `Create` call made so far. -/
structure World (σ : Type) where
  repo : σ
  createCalls : List CreateBookInput

/-- The call `u.repo.Create(ctx, in)`: runs the repository and logs the call. -/
def callCreate {σ : Type} (r : BookRepository σ) (inp : CreateBookInput) (w : World σ) :
    CreateResult σ × World σ :=
  let out := r inp w.repo
  (out.1, { repo := out.2, createCalls := w.createCalls ++ [inp] })

/-- How a call of `CreateBook` ends: it returns a `*Book` and an `error`, or it
dereferences the nil book a repository returned together with a nil error. -/
inductive Outcome where
  | ret (book : Option Book) (err : Option GoError)
  | nilDeref
deriving DecidableEq, Repr

/-- `(*bookUsecase).CreateBook` of `book_usecase.go`; `now` is the value of
`time.Now()`.  The assignment `book.CreatedAt = time.Now()` goes through the
pointer the repository returned, so it also changes the repository state by
`store`. -/
def CreateBook {σ : Type} (r : BookRepository σ) (now : Time) (inp : CreateBookInput)
    (w : World σ) : Outcome × World σ :=
  if TrimSpace inp.Title = "" ∨ TrimSpace inp.Author = "" then
    (Outcome.ret none (some GoError.ErrValidation), w)
  else
    let out := callCreate r inp w
    match out.1.err with
    | some e => (Outcome.ret none (some e), out.2)
    | none =>
      match out.1.book with
      | none => (Outcome.nilDeref, out.2)
      | some book =>
        if book.CreatedAt.IsZero then
          (Outcome.ret (some { book with CreatedAt := now }) none,
            { out.2 with repo := out.1.store { book with CreatedAt := now } out.2.repo })
        else
          (Outcome.ret (some book) none, out.2)

/-- The stub repository of `book_usecase_stub_test.go`: its state holds the canned
outputs and the spy fields `called` and `lastIn`. -/
structure stubRepo where
  returnBook : Option Book
  returnErr : Option GoError
  called : Bool
  lastIn : CreateBookInput
deriving DecidableEq, Repr

/-- `(*stubRepo).Create`: it returns the pointer `s.returnBook` itself, so an
assignment through the result changes the stub's `returnBook`. -/
def stubRepo.Create : BookRepository stubRepo :=
  fun inp s =>
    (⟨s.returnBook, s.returnErr, fun b st => { st with returnBook := some b }⟩,
      { s with called := true, lastIn := inp })

/-- The fake repository of `book_usecase_fake_test.go`: the books its `created`
slice points to, the knobs `nextErr` and `returnZeroCreatedAt`, and the counters
`createCalls` and `lastInput`. -/
structure fakeRepo where
  created : List Book
  nextErr : Option GoError
  returnZeroCreatedAt : Bool
  createCalls : Nat
  lastInput : CreateBookInput
deriving DecidableEq, Repr

/-- `(*fakeRepo).Create`; `now` is the value of its `time.Now()`.  The pointer it
returns is the one it appends to `created`, so an assignment through the result
changes that entry. -/
def fakeRepo.Create (now : Time) : BookRepository fakeRepo :=
  fun inp f =>
    let f1 : fakeRepo := { f with createCalls := f.createCalls + 1, lastInput := inp }
    match f1.nextErr with
    | some err => (⟨none, some err, fun _ st => st⟩, { f1 with nextErr := none })
    | none =>
      let createdAt : Time := if f1.returnZeroCreatedAt then ⟨0⟩ else now
      let b : Book := ⟨(f1.created.length : Int) + 1, inp.Title, inp.Author, createdAt⟩
      (⟨some b, none, fun b2 st => { st with created := st.created.set f1.created.length b2 }⟩,
        { f1 with created := f1.created ++ [b] })

end Usecase

namespace Http

open Usecase

/-! ## HTTP delivery: `book_handler.go`

The request is kept abstract: `BodyParser` is fiber's `c.BodyParser(&req)` as a
function from the request to the decoded input (`none` when it returns an
error).  The use case behind the handler is any implementation of the interface
`usecase.BookUsecase`, given state-passing like the repository.
-/

/-- `http.StatusBadRequest`. -/
def StatusBadRequest : Nat := 400

/-- `http.StatusUnprocessableEntity`. -/
def StatusUnprocessableEntity : Nat := 422

/-- `http.StatusInternalServerError`. -/
def StatusInternalServerError : Nat := 500

/-- `http.StatusCreated`. -/
def StatusCreated : Nat := 201

/-- The value handed to `c.JSON`: a `fiber.Map` with the single key `"error"`, or
the `*domain.Book` the use case returned. -/
inductive Body where
  | errorMap (msg : String)
  | book (b : Option Book)
deriving DecidableEq, Repr

/-- The response written by `c.Status(code).JSON(body)`. -/
structure Response where
  status : Nat
  body : Body
deriving DecidableEq, Repr

/-- An implementation of the interface `usecase.BookUsecase` over a state `ω`. -/
def BookUsecase (ω : Type) : Type := CreateBookInput → ω → Outcome × ω

/-- The state threaded through the handler: the use case's state and the log of
the arguments of every `CreateBook` call made on the use case. -/
structure HandlerWorld (ω : Type) where
  uc : ω
  createBookCalls : List CreateBookInput

/-- How the handler ends: it writes a response, or the use case it called did
not return. -/
inductive HandlerOutcome where
  | respond (r : Response)
  | panicked
deriving DecidableEq, Repr

/-- `(*BookHandler).CreateBook` of `book_handler.go`. -/
def BookHandler.CreateBook {ρ ω : Type} (BodyParser : ρ → Option CreateBookInput)
    (uc : BookUsecase ω) (request : ρ) (w : HandlerWorld ω) :
    HandlerOutcome × HandlerWorld ω :=
  match BodyParser request with
  | none =>
    (HandlerOutcome.respond ⟨StatusBadRequest, Body.errorMap "invalid JSON body"⟩, w)
  | some req =>
    let out := uc req w.uc
    let w2 : HandlerWorld ω :=
      { uc := out.2, createBookCalls := w.createBookCalls ++ [req] }
    match out.1 with
    | Outcome.nilDeref => (HandlerOutcome.panicked, w2)
    | Outcome.ret _ (some err) =>
      if err = GoError.ErrValidation then
        (HandlerOutcome.respond ⟨StatusUnprocessableEntity, Body.errorMap err.Error⟩, w2)
      else
        (HandlerOutcome.respond ⟨StatusInternalServerError, Body.errorMap "internal error"⟩,
          w2)
    | Outcome.ret book none =>
      (HandlerOutcome.respond ⟨StatusCreated, Body.book book⟩, w2)

/-- The use case of `book_usecase.go` over the stub repository, as the handler's
`BookUsecase`; `time.Now()` is fixed to a non-zero instant. -/
def stubUsecase : BookUsecase (World stubRepo) :=
  fun inp w => CreateBook stubRepo.Create ⟨63896731200000000000⟩ inp w

/-- A handler world whose use case state is a stub repository returning the
given book and error. -/
def stubHandlerWorld (b : Option Book) (e : Option GoError) : HandlerWorld (World stubRepo) :=
  { uc := { repo := { returnBook := b, returnErr := e, called := false, lastIn := ⟨"", ""⟩ },
            createCalls := [] },
    createBookCalls := [] }

end Http

namespace DateLib

/-! ## Date formatting: `unittest1/lib/date.go`

`FormatDateLong` calls `time.Parse("2006-01-02", s)` and
`t.Format("2 January 2006")` of Go's standard library.  Both are embedded here
for these two fixed layouts, following the steps of package `time`: the layout
`"2006-01-02"` is the chunk sequence four-digit year, `-`, two-digit month, `-`,
two-digit day.  A string is its sequence of characters, and the parsed `Time`
(midnight UTC) is kept as its civil date.
-/

/-- The reasons for which `time.Parse` returns a `*ParseError` on this layout. -/
inductive ParseError where
  | bad
  | monthOutOfRange
  | extraText
  | dayOutOfRange
deriving DecidableEq, Repr

/-- A civil date: the year, month and day of a `time.Time` in UTC. -/
structure Date where
  year : Nat
  month : Nat
  day : Nat
deriving DecidableEq, Repr

/-- Go `isDigit`: the character is an ASCII decimal digit. -/
def isDigit (c : Char) : Bool := decide (48 ≤ c.toNat) && decide (c.toNat ≤ 57)

/-- The value `c - '0'` of a digit character. -/
def digitVal (c : Char) : Nat := c.toNat - 48

/-- Go `getnum(s, fixed)`: one or two leading digits; with `fixed` exactly two are
required. -/
def getnum (s : List Char) (fixed : Bool) : Option (Nat × List Char) :=
  match s with
  | [] => none
  | c0 :: rest =>
    if isDigit c0 then
      match rest with
      | [] => if fixed then none else some (digitVal c0, rest)
      | c1 :: rest2 =>
        if isDigit c1 then some (digitVal c0 * 10 + digitVal c1, rest2)
        else if fixed then none else some (digitVal c0, rest)
    else none

/-- The `stdLongYear` case of `time.Parse`: the value needs four characters, the
first a digit, and `atoi` of the first four must succeed (so all four are
digits). -/
def parseLongYear (s : List Char) : Option (Nat × List Char) :=
  match s with
  | c0 :: c1 :: c2 :: c3 :: rest =>
    if isDigit c0 && isDigit c1 && isDigit c2 && isDigit c3 then
      some (digitVal c0 * 1000 + digitVal c1 * 100 + digitVal c2 * 10 + digitVal c3, rest)
    else none
  | _ => none

/-- Go `skip(value, "-")`: the literal `-` of the layout must be the next
character. -/
def skipDash (value : List Char) : Option (List Char) :=
  match value with
  | c :: rest => if c = '-' then some rest else none
  | [] => none

/-- Go `isLeap`. -/
def isLeap (year : Nat) : Bool :=
  year % 4 == 0 && (year % 100 != 0 || year % 400 == 0)

/-- Go `daysIn`: the number of days of month `m` (1 to 12) in the given year. -/
def daysIn (m year : Nat) : Nat :=
  if m = 2 then (if isLeap year then 29 else 28)
  else if m = 4 ∨ m = 6 ∨ m = 9 ∨ m = 11 then 30
  else 31

/-- Go `time.Parse("2006-01-02", value)`. -/
def Parse (value : List Char) : Except ParseError Date :=
  match parseLongYear value with
  | none => Except.error ParseError.bad
  | some (year, v1) =>
    match skipDash v1 with
    | none => Except.error ParseError.bad
    | some v2 =>
      match getnum v2 true with
      | none => Except.error ParseError.bad
      | some (month, v3) =>
        if month = 0 ∨ 12 < month then Except.error ParseError.monthOutOfRange
        else
          match skipDash v3 with
          | none => Except.error ParseError.bad
          | some v4 =>
            match getnum v4 true with
            | none => Except.error ParseError.bad
            | some (day, v5) =>
              if v5 ≠ [] then Except.error ParseError.extraText
              else if day < 1 ∨ daysIn month year < day then
                Except.error ParseError.dayOutOfRange
              else Except.ok ⟨year, month, day⟩

/-- Go `longMonthNames`, indexed by the month number. -/
def monthName (m : Nat) : String :=
  match m with
  | 1 => "January"
  | 2 => "February"
  | 3 => "March"
  | 4 => "April"
  | 5 => "May"
  | 6 => "June"
  | 7 => "July"
  | 8 => "August"
  | 9 => "September"
  | 10 => "October"
  | 11 => "November"
  | 12 => "December"
  | _ => "%!Month(" ++ toString m ++ ")"

/-- The four decimal digits of a number below 10000. -/
def pad4 (n : Nat) : List Char :=
  [Nat.digitChar (n / 1000), Nat.digitChar (n / 100 % 10), Nat.digitChar (n / 10 % 10),
    Nat.digitChar (n % 10)]

/-- The two decimal digits of a number below 100. -/
def pad2 (n : Nat) : List Char :=
  [Nat.digitChar (n / 10), Nat.digitChar (n % 10)]

/-- Go `appendInt(b, x, width)` for `x >= 0`: the decimal digits of `x`, padded
with zeros on the left to `width`; a four-digit field below 10000 is written
digit by digit. -/
def appendInt (x width : Nat) : List Char :=
  if width = 4 ∧ x < 10000 then pad4 x
  else List.replicate (width - (Nat.toDigits 10 x).length) '0' ++ Nat.toDigits 10 x

/-- Go `t.Format("2 January 2006")`: the day without padding, the long month
name, the year on four digits. -/
def Format (t : Date) : String :=
  ⟨appendInt t.day 0 ++ ' ' :: (monthName t.month).data ++ ' ' :: appendInt t.year 4⟩

/-- `FormatDateLong` of `date.go`: the formatted date and a nil error, or the
empty string and the parse error. -/
def FormatDateLong (s : String) : String × Option ParseError :=
  match Parse s.data with
  | Except.error err => ("", some err)
  | Except.ok t => (Format t, none)

/-- The zero-padded `YYYY-MM-DD` rendering of a date. -/
def renderISO (y m d : Nat) : String :=
  ⟨pad4 y ++ ('-' :: (pad2 m ++ ('-' :: pad2 d)))⟩

/-- The triple is a real calendar date with a four-digit year. -/
def isCalendarDate (y m d : Nat) : Prop :=
  y ≤ 9999 ∧ 1 ≤ m ∧ m ≤ 12 ∧ 1 ≤ d ∧ d ≤ daysIn m y

instance (y m d : Nat) : Decidable (isCalendarDate y m d) := by
  unfold isCalendarDate; exact inferInstance

end DateLib

namespace Invoice

/-! ## Sanity checks against the repository's test table -/

example : CalculateTotals [⟨2, 1500⟩, ⟨1, 2500⟩] 0 0 = ⟨5500, 0, 0, 5500⟩ := by decide
example : CalculateTotals [⟨3, 1999⟩, ⟨1, 505⟩] 10 11 = ⟨6502, 650, 644, 6496⟩ := by decide
example : CalculateTotals [⟨1, 333⟩] 15 10 = ⟨333, 50, 28, 311⟩ := by decide
example : CalculateTotals [⟨0, 1000⟩, ⟨-1, 2000⟩, ⟨2, -500⟩, ⟨2, 250⟩] 0 0 = ⟨500, 0, 0, 500⟩ := by
  decide
example : RoundPercent 1000 0 = 0 := by decide
example : RoundPercent 0 5 = 0 := by decide
example : RoundPercent 1000 1 = 10 := by decide
example : RoundPercent 333 15 = 50 := by decide

/-! ## Facts about the machine arithmetic -/

theorem wrap64_of_isInt64 {x : Int} (h : isInt64 x) : wrap64 x = x := by
  unfold isInt64 minInt64 maxInt64 at h
  unfold wrap64
  omega

theorem wrap64_isInt64 (x : Int) : isInt64 (wrap64 x) := by
  unfold isInt64 minInt64 maxInt64 wrap64
  omega

theorem wrap64_add_left (a b : Int) : wrap64 (wrap64 a + b) = wrap64 (a + b) := by
  unfold wrap64
  omega

theorem add64_of_isInt64 {a b : Int} (h : isInt64 (a + b)) : add64 a b = a + b :=
  wrap64_of_isInt64 h

theorem sub64_of_isInt64 {a b : Int} (h : isInt64 (a - b)) : sub64 a b = a - b :=
  wrap64_of_isInt64 h

theorem mul64_of_isInt64 {a b : Int} (h : isInt64 (a * b)) : mul64 a b = a * b :=
  wrap64_of_isInt64 h

/-! ## The subtotal loop -/

theorem Item.valid_iff (it : Item) :
    it.valid = true ↔ ¬ (it.Qty ≤ 0 ∨ it.UnitPriceCents < 0) := by
  simp [Item.valid]

theorem subtotalStep_of_not_valid {it : Item} (h : it.valid = false) (acc : Int) :
    subtotalStep acc it = acc := by
  have h' : it.Qty ≤ 0 ∨ it.UnitPriceCents < 0 := by
    by_contra hc
    have := (Item.valid_iff it).mpr hc
    simp [this] at h
  simp [subtotalStep, h']

theorem foldl_subtotalStep_filter (items : List Item) (acc : Int) :
    items.foldl subtotalStep acc = (items.filter Item.valid).foldl subtotalStep acc := by
  induction items generalizing acc with
  | nil => rfl
  | cons it rest ih =>
    cases hv : it.valid with
    | false =>
      rw [List.filter_cons_of_neg (by simp [hv]), List.foldl_cons,
        subtotalStep_of_not_valid hv, ih]
    | true =>
      rw [List.filter_cons_of_pos hv, List.foldl_cons, List.foldl_cons, ih]

theorem subtotalLoop_filter (items : List Item) :
    subtotalLoop items = subtotalLoop (items.filter Item.valid) :=
  foldl_subtotalStep_filter items 0

theorem validSum_nil : validSum [] = 0 := rfl

theorem validSum_cons_valid {it : Item} (h : it.valid = true) (rest : List Item) :
    validSum (it :: rest) = it.Qty * it.UnitPriceCents + validSum rest := by
  simp [validSum, List.filter_cons_of_pos h]

theorem validSum_cons_not_valid {it : Item} (h : it.valid = false) (rest : List Item) :
    validSum (it :: rest) = validSum rest := by
  simp [validSum, h]

theorem valid_mul_nonneg {it : Item} (h : it.valid = true) :
    0 ≤ it.Qty * it.UnitPriceCents := by
  have h' := (Item.valid_iff it).mp h
  push_neg at h'
  exact mul_nonneg (le_of_lt h'.1) h'.2

theorem validSum_nonneg (items : List Item) : 0 ≤ validSum items := by
  induction items with
  | nil => simp [validSum_nil]
  | cons it rest ih =>
    cases hv : it.valid with
    | false => rw [validSum_cons_not_valid hv]; exact ih
    | true =>
      rw [validSum_cons_valid hv]
      exact add_nonneg (valid_mul_nonneg hv) ih

theorem foldl_subtotalStep_exact (items : List Item) (acc : Int)
    (hacc : 0 ≤ acc) (hsum : acc + validSum items ≤ maxInt64) :
    items.foldl subtotalStep acc = acc + validSum items := by
  induction items generalizing acc with
  | nil => simp [validSum_nil]
  | cons it rest ih =>
    cases hv : it.valid with
    | false =>
      rw [validSum_cons_not_valid hv] at hsum
      rw [List.foldl_cons, subtotalStep_of_not_valid hv, validSum_cons_not_valid hv]
      exact ih acc hacc hsum
    | true =>
      rw [validSum_cons_valid hv] at hsum
      have hp := valid_mul_nonneg hv
      have hr := validSum_nonneg rest
      have hnot := (Item.valid_iff it).mp hv
      have hmul : mul64 it.Qty it.UnitPriceCents = it.Qty * it.UnitPriceCents := by
        apply mul64_of_isInt64
        unfold isInt64 minInt64
        unfold maxInt64 at *
        constructor <;> omega
      have hadd : add64 acc (it.Qty * it.UnitPriceCents) = acc + it.Qty * it.UnitPriceCents := by
        apply add64_of_isInt64
        unfold isInt64 minInt64
        unfold maxInt64 at *
        constructor <;> omega
      rw [List.foldl_cons, validSum_cons_valid hv]
      have hstep : subtotalStep acc it = acc + it.Qty * it.UnitPriceCents := by
        simp only [subtotalStep, if_neg hnot, hmul, hadd]
      rw [hstep, ih (acc + it.Qty * it.UnitPriceCents) (by omega) (by omega)]
      ring

theorem subtotalLoop_exact (items : List Item) (h : validSum items ≤ maxInt64) :
    subtotalLoop items = validSum items := by
  have := foldl_subtotalStep_exact items 0 (le_refl 0) (by simpa using h)
  simpa [subtotalLoop] using this

/-! ## Rounding -/

theorem RoundPercent_of_nonneg {amount pct : Int} (ha : 0 ≤ amount) (hp : 0 ≤ pct)
    (hov : amount * pct + 50 ≤ maxInt64) :
    RoundPercent amount pct = (amount * pct + 50) / 100 := by
  have hx : 0 ≤ amount * pct := mul_nonneg ha hp
  unfold RoundPercent
  split
  · rename_i h
    have h0 : amount * pct = 0 := by
      rcases h with h | h
      · have : pct = 0 := le_antisymm h hp
        simp [this]
      · simp [h]
    rw [h0]
    decide
  · have hmul : mul64 amount pct = amount * pct := by
      apply mul64_of_isInt64
      unfold isInt64 minInt64
      unfold maxInt64 at *
      constructor <;> omega
    have hadd : add64 (amount * pct) 50 = amount * pct + 50 := by
      apply add64_of_isInt64
      unfold isInt64 minInt64
      unfold maxInt64 at *
      constructor <;> omega
    have hdiv : Int.tdiv (amount * pct + 50) 100 = (amount * pct + 50) / 100 :=
      Int.tdiv_eq_ediv (by omega) (by decide)
    simp only [hmul, hadd, div64, hdiv]
    apply wrap64_of_isInt64
    unfold isInt64 minInt64
    unfold maxInt64 at *
    constructor <;> omega

theorem RoundPercent_nonneg_of_nonneg {amount pct : Int} (ha : 0 ≤ amount) (hp : 0 ≤ pct)
    (hov : amount * pct + 50 ≤ maxInt64) : 0 ≤ RoundPercent amount pct := by
  rw [RoundPercent_of_nonneg ha hp hov]
  have hx : 0 ≤ amount * pct := mul_nonneg ha hp
  omega

theorem RoundPercent_of_nonpos_pct {pct : Int} (hp : pct ≤ 0) (amount : Int) :
    RoundPercent amount pct = 0 := by
  simp [RoundPercent, hp]

/-! ## Properties of `CalculateTotals` and `RoundPercent` -/

/-- C1: for every item list and every pair of rates, the `Total` field is
`Subtotal - Discount + Tax` computed in `int64` arithmetic: it is the code's
`add64 (sub64 Subtotal Discount) Tax`, which is the integer
`Subtotal - Discount + Tax` reduced to the `int64` range, whether or not an
intermediate value wrapped. -/
theorem CalculateTotals_total_identity (items : List Item) (discountPct taxPct : Int) :
    (CalculateTotals items discountPct taxPct).Total
        = add64 (sub64 (CalculateTotals items discountPct taxPct).Subtotal
            (CalculateTotals items discountPct taxPct).Discount)
            (CalculateTotals items discountPct taxPct).Tax
      ∧ (CalculateTotals items discountPct taxPct).Total
        = wrap64 ((CalculateTotals items discountPct taxPct).Subtotal
            - (CalculateTotals items discountPct taxPct).Discount
            + (CalculateTotals items discountPct taxPct).Tax) := by
  refine ⟨rfl, ?_⟩
  simp only [CalculateTotals, add64, sub64]
  exact wrap64_add_left _ _

/-- C2: when the sum of `Qty * UnitPriceCents` over the valid items fits in an
`int64` (no overflow), the `Subtotal` field equals that sum, and the `Subtotal`
is the same for every choice of the two rates. -/
theorem CalculateTotals_subtotal_eq_validSum (items : List Item) (discountPct taxPct : Int)
    (h : validSum items ≤ maxInt64) :
    (CalculateTotals items discountPct taxPct).Subtotal = validSum items
      ∧ ∀ d t : Int, (CalculateTotals items d t).Subtotal
          = (CalculateTotals items discountPct taxPct).Subtotal := by
  refine ⟨?_, fun _ _ => rfl⟩
  simp only [CalculateTotals]
  exact subtotalLoop_exact items h

theorem CalculateTotals_subtotal_eq_validSum_witness :
    validSum [⟨3, 1999⟩, ⟨-1, 2000⟩, ⟨1, 505⟩] ≤ maxInt64
      ∧ (CalculateTotals [⟨3, 1999⟩, ⟨-1, 2000⟩, ⟨1, 505⟩] 10 11).Subtotal = 6502 := by
  refine ⟨by decide, ?_⟩
  rw [(CalculateTotals_subtotal_eq_validSum [⟨3, 1999⟩, ⟨-1, 2000⟩, ⟨1, 505⟩] 10 11
    (by decide)).1]
  decide

/-- C3: invalid line items are inert.  The totals of a list equal the totals of
the list with every item having `Qty <= 0` or `UnitPriceCents < 0` removed, and
inserting such an item at any position of a list changes no field of the result. -/
theorem CalculateTotals_invalid_items_inert (items pre post : List Item) (it : Item)
    (discountPct taxPct : Int) (hinv : it.Qty ≤ 0 ∨ it.UnitPriceCents < 0) :
    CalculateTotals items discountPct taxPct
        = CalculateTotals (items.filter Item.valid) discountPct taxPct
      ∧ CalculateTotals (pre ++ it :: post) discountPct taxPct
        = CalculateTotals (pre ++ post) discountPct taxPct := by
  have hv : it.valid = false := by
    cases h : it.valid with
    | false => rfl
    | true => exact absurd hinv ((Item.valid_iff it).mp h)
  constructor
  · simp only [CalculateTotals, ← subtotalLoop_filter]
  · have hloop : subtotalLoop (pre ++ it :: post) = subtotalLoop (pre ++ post) := by
      simp only [subtotalLoop, List.foldl_append, List.foldl_cons,
        subtotalStep_of_not_valid hv]
    simp only [CalculateTotals, hloop]

theorem CalculateTotals_invalid_items_inert_witness :
    ((2 : Int) ≤ 0 ∨ (-500 : Int) < 0)
      ∧ CalculateTotals [⟨0, 1000⟩, ⟨-1, 2000⟩, ⟨2, -500⟩, ⟨2, 250⟩] 0 0
          = CalculateTotals [⟨2, 250⟩] 0 0
      ∧ CalculateTotals ([⟨3, 1999⟩] ++ ⟨2, -500⟩ :: [⟨1, 505⟩]) 10 11
          = CalculateTotals ([⟨3, 1999⟩] ++ [⟨1, 505⟩]) 10 11 :=
  ⟨by decide,
    CalculateTotals_invalid_items_inert [⟨0, 1000⟩, ⟨-1, 2000⟩, ⟨2, -500⟩, ⟨2, 250⟩]
      [⟨3, 1999⟩] [⟨1, 505⟩] ⟨2, -500⟩ 0 0 (by decide) |>.1,
    CalculateTotals_invalid_items_inert [] [⟨3, 1999⟩] [⟨1, 505⟩] ⟨2, -500⟩ 10 11
      (by decide) |>.2⟩

/-- C4: two-stage discount then tax.  For every input the `Discount` field is
`RoundPercent` of the `Subtotal` at `discountPct`, and the `Tax` field is
`RoundPercent` at `taxPct` of `max 0 (Subtotal - Discount)`, the subtraction
being the `int64` one of the code: the tax is taken on the post-discount amount
clamped at zero. -/
theorem CalculateTotals_discount_then_tax (items : List Item) (discountPct taxPct : Int) :
    (CalculateTotals items discountPct taxPct).Discount
        = RoundPercent (CalculateTotals items discountPct taxPct).Subtotal discountPct
      ∧ (CalculateTotals items discountPct taxPct).Tax
        = RoundPercent
            (max 0 (sub64 (CalculateTotals items discountPct taxPct).Subtotal
              (CalculateTotals items discountPct taxPct).Discount)) taxPct := by
  refine ⟨rfl, ?_⟩
  simp only [CalculateTotals, taxBase]
  congr 1
  split
  · rename_i h; exact (max_eq_left (le_of_lt h)).symm
  · rename_i h; exact (max_eq_right (not_lt.mp h)).symm

/-- C5: half-up rounding on the non-negative domain.  For `amount >= 0` and
`pct >= 0` with `amount * pct + 50` within `int64`, the result `r` satisfies
`100 * r - 50 <= amount * pct < 100 * r + 50`, it is the only integer that does,
and it equals `(amount * pct + 50) / 100` also on the early-return path
(`pct = 0` or `amount = 0`). -/
theorem RoundPercent_half_up (amount pct : Int) (ha : 0 ≤ amount) (hp : 0 ≤ pct)
    (hov : amount * pct + 50 ≤ maxInt64) :
    (100 * RoundPercent amount pct - 50 ≤ amount * pct
        ∧ amount * pct < 100 * RoundPercent amount pct + 50)
      ∧ (∀ r : Int, 100 * r - 50 ≤ amount * pct → amount * pct < 100 * r + 50 →
          r = RoundPercent amount pct)
      ∧ RoundPercent amount pct = (amount * pct + 50) / 100 := by
  have hr := RoundPercent_of_nonneg ha hp hov
  rw [hr]
  generalize amount * pct = x
  refine ⟨⟨by omega, by omega⟩, ?_, rfl⟩
  intro r h1 h2
  omega

theorem RoundPercent_half_up_witness :
    RoundPercent 333 15 = 50 ∧ RoundPercent 283 10 = 28 ∧ RoundPercent 50 1 = 1
      ∧ RoundPercent 49 1 = 0
      ∧ (∀ r : Int, 100 * r - 50 ≤ 333 * 15 → 333 * 15 < 100 * r + 50 →
          r = RoundPercent 333 15) :=
  ⟨by decide, by decide, by decide, by decide,
    (RoundPercent_half_up 333 15 (by decide) (by decide) (by decide)).2.1⟩

/-- C6: at a negative amount the code does not return the floor of the shifted
quotient.  `RoundPercent(-149, 1)` has `raw + 50 = -99`; Go's division truncates
toward zero and gives `0`, while `floor(-99 / 100)` is `-1`, the half-up rounding
of `-1.49`. -/
theorem RoundPercent_negative_amount_truncates :
    RoundPercent (-149) 1 = 0 ∧ Int.fdiv ((-149) * 1 + 50) 100 = -1
      ∧ RoundPercent (-149) 1 ≠ Int.fdiv ((-149) * 1 + 50) 100 := by
  decide

/-- C7: `RoundPercent` short-circuits to zero.  If `pct <= 0` or `amount = 0` the
result is `0`, which is also the result at `pct = 0` for the same amount. -/
theorem RoundPercent_short_circuit (amount pct : Int) (h : pct ≤ 0 ∨ amount = 0) :
    RoundPercent amount pct = 0 ∧ RoundPercent amount pct = RoundPercent amount 0 := by
  have h0 : RoundPercent amount 0 = 0 := RoundPercent_of_nonpos_pct (le_refl 0) amount
  have h1 : RoundPercent amount pct = 0 := by simp [RoundPercent, h]
  exact ⟨h1, by rw [h1, h0]⟩

theorem RoundPercent_short_circuit_witness :
    RoundPercent 1000 (-7) = 0 ∧ RoundPercent 1000 (-7) = RoundPercent 1000 0 :=
  RoundPercent_short_circuit 1000 (-7) (Or.inl (by decide))

/-- C8: with `discountPct <= 100` and no overflow (the valid sum and
`validSum * discountPct + 50` fit in `int64`), `Discount <= Subtotal`, so
`Subtotal - Discount` is not negative, the tax base is `Subtotal - Discount`
unclamped, and the tax is `RoundPercent` of that difference. -/
theorem CalculateTotals_discount_le_subtotal (items : List Item) (discountPct taxPct : Int)
    (hd : discountPct ≤ 100) (hsum : validSum items ≤ maxInt64)
    (hov : validSum items * discountPct + 50 ≤ maxInt64) :
    (CalculateTotals items discountPct taxPct).Discount
        ≤ (CalculateTotals items discountPct taxPct).Subtotal
      ∧ 0 ≤ (CalculateTotals items discountPct taxPct).Subtotal
          - (CalculateTotals items discountPct taxPct).Discount
      ∧ taxBase (CalculateTotals items discountPct taxPct).Subtotal
          (CalculateTotals items discountPct taxPct).Discount
        = (CalculateTotals items discountPct taxPct).Subtotal
          - (CalculateTotals items discountPct taxPct).Discount
      ∧ (CalculateTotals items discountPct taxPct).Tax
        = RoundPercent ((CalculateTotals items discountPct taxPct).Subtotal
          - (CalculateTotals items discountPct taxPct).Discount) taxPct := by
  have hs : subtotalLoop items = validSum items := subtotalLoop_exact items hsum
  have hnn : 0 ≤ validSum items := validSum_nonneg items
  have hdisc : 0 ≤ RoundPercent (validSum items) discountPct
      ∧ RoundPercent (validSum items) discountPct ≤ validSum items := by
    rcases le_or_lt discountPct 0 with hneg | hpos
    · rw [RoundPercent_of_nonpos_pct hneg]; exact ⟨le_refl 0, hnn⟩
    · rw [RoundPercent_of_nonneg hnn (le_of_lt hpos) hov]
      have hle : validSum items * discountPct ≤ validSum items * 100 :=
        mul_le_mul_of_nonneg_left hd hnn
      have hx : 0 ≤ validSum items * discountPct := mul_nonneg hnn (le_of_lt hpos)
      constructor <;> omega
  have hsub : sub64 (validSum items) (RoundPercent (validSum items) discountPct)
      = validSum items - RoundPercent (validSum items) discountPct := by
    apply sub64_of_isInt64
    unfold isInt64 minInt64
    unfold maxInt64 at *
    constructor <;> omega
  have htb : taxBase (validSum items) (RoundPercent (validSum items) discountPct)
      = validSum items - RoundPercent (validSum items) discountPct := by
    simp only [taxBase, hsub]
    rw [if_neg (by omega)]
  simp only [CalculateTotals, hs, htb]
  exact ⟨hdisc.2, by omega, trivial, trivial⟩

theorem CalculateTotals_discount_le_subtotal_witness :
    (CalculateTotals [⟨1, 333⟩] 100 10).Discount ≤ (CalculateTotals [⟨1, 333⟩] 100 10).Subtotal
      ∧ taxBase (CalculateTotals [⟨1, 333⟩] 100 10).Subtotal
          (CalculateTotals [⟨1, 333⟩] 100 10).Discount
        = (CalculateTotals [⟨1, 333⟩] 100 10).Subtotal
          - (CalculateTotals [⟨1, 333⟩] 100 10).Discount :=
  have h := CalculateTotals_discount_le_subtotal [⟨1, 333⟩] 100 10 (by decide) (by decide)
    (by decide)
  ⟨h.1, h.2.2.1⟩

/-- C9: percentages of 100 or more are not capped.  For `amount >= 0` and
`k >= 1` with `amount * (100 * k) + 50` within `int64`,
`RoundPercent amount (100 * k) = k * amount`; so the result is `amount` at 100
and `2 * amount` at 200. -/
theorem RoundPercent_hundreds (amount k : Int) (ha : 0 ≤ amount) (hk : 1 ≤ k)
    (hov : amount * (100 * k) + 50 ≤ maxInt64) :
    RoundPercent amount (100 * k) = k * amount := by
  rw [RoundPercent_of_nonneg ha (by omega) hov]
  have he : amount * (100 * k) = 100 * (k * amount) := by ring
  rw [he]
  generalize k * amount = y
  omega

theorem RoundPercent_hundreds_witness :
    RoundPercent 333 (100 * 1) = 1 * 333 ∧ RoundPercent 333 (100 * 2) = 2 * 333 :=
  ⟨RoundPercent_hundreds 333 1 (by decide) (by decide) (by decide),
    RoundPercent_hundreds 333 2 (by decide) (by decide) (by decide)⟩

end Invoice

namespace Usecase

/-! ## The book use case -/

theorem dropWhile_eq_nil_iff_all (p : Char → Bool) (l : List Char) :
    l.dropWhile p = [] ↔ ∀ c ∈ l, p c = true := by
  induction l with
  | nil => simp
  | cons a rest ih =>
    cases hp : p a with
    | false => simp [List.dropWhile_cons, hp]
    | true => simp [List.dropWhile_cons, hp, ih]

theorem trimRunes_eq_nil_iff (l : List Char) :
    trimRunes l = [] ↔ ∀ c ∈ l, isSpace c = true := by
  unfold trimRunes
  rw [List.reverse_eq_nil_iff, dropWhile_eq_nil_iff_all]
  constructor
  · intro h
    have hnil : l.dropWhile isSpace = [] := by
      induction l with
      | nil => rfl
      | cons a rest ih =>
        cases hp : isSpace a with
        | true =>
          simp only [List.dropWhile_cons, hp, if_true] at h ⊢
          exact ih h
        | false =>
          simp only [List.dropWhile_cons, hp] at h
          have := h a (by simp)
          simp [hp] at this
    exact (dropWhile_eq_nil_iff_all isSpace l).mp hnil
  · intro h c hc
    rw [(dropWhile_eq_nil_iff_all isSpace l).mpr h] at hc
    simp at hc

theorem TrimSpace_eq_empty_iff (s : String) :
    TrimSpace s = "" ↔ ∀ c ∈ s.data, isSpace c = true := by
  rw [← trimRunes_eq_nil_iff]
  unfold TrimSpace
  constructor
  · intro h
    have := congrArg String.data h
    simpa using this
  · intro h
    rw [h]

example : TrimSpace "   " = "" := by decide
example : TrimSpace " \t Dune \n" = "Dune" := by decide
example : TrimSpace "" = "" := by decide

theorem CreateBook_of_valid {σ : Type} (r : BookRepository σ) (now : Time)
    (inp : CreateBookInput) (w : World σ)
    (hvalid : TrimSpace inp.Title ≠ "" ∧ TrimSpace inp.Author ≠ "") :
    CreateBook r now inp w =
      (match (r inp w.repo).1.err with
        | some e => Outcome.ret none (some e)
        | none =>
          match (r inp w.repo).1.book with
          | none => Outcome.nilDeref
          | some book =>
            if book.CreatedAt.IsZero then Outcome.ret (some { book with CreatedAt := now }) none
            else Outcome.ret (some book) none,
        { repo :=
            match (r inp w.repo).1.err, (r inp w.repo).1.book with
            | none, some book =>
              if book.CreatedAt.IsZero then
                (r inp w.repo).1.store { book with CreatedAt := now } (r inp w.repo).2
              else (r inp w.repo).2
            | _, _ => (r inp w.repo).2,
          createCalls := w.createCalls ++ [inp] }) := by
  have hn : ¬ (TrimSpace inp.Title = "" ∨ TrimSpace inp.Author = "") := by
    intro hc
    rcases hc with hc | hc
    · exact hvalid.1 hc
    · exact hvalid.2 hc
  simp only [CreateBook, if_neg hn, callCreate]
  cases (r inp w.repo).1.err with
  | some e => rfl
  | none =>
    cases (r inp w.repo).1.book with
    | none => rfl
    | some book =>
      simp only []
      split <;> rfl

theorem CreateBook_autofill_store {σ : Type} (r : BookRepository σ) (now : Time)
    (inp : CreateBookInput) (w : World σ) (b : Book)
    (hvalid : TrimSpace inp.Title ≠ "" ∧ TrimSpace inp.Author ≠ "")
    (herr : (r inp w.repo).1.err = none) (hbook : (r inp w.repo).1.book = some b)
    (hzero : b.CreatedAt.IsZero = true) :
    (CreateBook r now inp w).2.repo
      = (r inp w.repo).1.store { b with CreatedAt := now } (r inp w.repo).2 := by
  rw [CreateBook_of_valid r now inp w hvalid]
  simp only [herr, hbook, hzero, if_true]

example :
    (CreateBook stubRepo.Create ⟨9⟩ ⟨"The Pragmatic Programmer", "Andrew Hunt"⟩
        { repo := { returnBook := some ⟨7, "The Pragmatic Programmer", "Andrew Hunt", ⟨0⟩⟩,
                    returnErr := none, called := false, lastIn := ⟨"", ""⟩ },
          createCalls := [] }).2.repo.returnBook
      = some ⟨7, "The Pragmatic Programmer", "Andrew Hunt", ⟨9⟩⟩ := by decide

example :
    (CreateBook (fakeRepo.Create ⟨5⟩) ⟨9⟩ ⟨"The Pragmatic Programmer", "Andrew Hunt"⟩
        { repo := { created := [], nextErr := none, returnZeroCreatedAt := true,
                    createCalls := 0, lastInput := ⟨"", ""⟩ },
          createCalls := [] }).2.repo.created
      = [⟨1, "The Pragmatic Programmer", "Andrew Hunt", ⟨9⟩⟩] := by decide

example :
    (CreateBook (fakeRepo.Create ⟨5⟩) ⟨9⟩ ⟨"Dune", "Frank Herbert"⟩
        { repo := { created := [], nextErr := none, returnZeroCreatedAt := false,
                    createCalls := 0, lastInput := ⟨"", ""⟩ },
          createCalls := [] }).1
      = Outcome.ret (some ⟨1, "Dune", "Frank Herbert", ⟨5⟩⟩) none := by decide

/-- C11: `CreateBook` propagates repository failures.  For a valid input (title
and author non-empty after `TrimSpace`), if the repository's `Create` returns the
error `e`, `CreateBook` returns a nil book and that same error value `e`, and the
log of `Create` calls has grown by exactly one entry, the input. -/
theorem CreateBook_propagates_repo_error {σ : Type} (r : BookRepository σ) (now : Time)
    (inp : CreateBookInput) (w : World σ) (e : GoError)
    (hvalid : TrimSpace inp.Title ≠ "" ∧ TrimSpace inp.Author ≠ "")
    (herr : (r inp w.repo).1.err = some e) :
    (CreateBook r now inp w).1 = Outcome.ret none (some e)
      ∧ (CreateBook r now inp w).2.createCalls = w.createCalls ++ [inp] := by
  rw [CreateBook_of_valid r now inp w hvalid, herr]
  exact ⟨rfl, rfl⟩

theorem CreateBook_propagates_repo_error_witness :
    (CreateBook stubRepo.Create ⟨1⟩ ⟨"Dune", "Frank Herbert"⟩
        { repo := { returnBook := none, returnErr := some (GoError.other 1 "db timeout"),
                    called := false, lastIn := ⟨"", ""⟩ },
          createCalls := [] }).1
      = Outcome.ret none (some (GoError.other 1 "db timeout")) :=
  (CreateBook_propagates_repo_error stubRepo.Create ⟨1⟩ ⟨"Dune", "Frank Herbert"⟩
    { repo := { returnBook := none, returnErr := some (GoError.other 1 "db timeout"),
                called := false, lastIn := ⟨"", ""⟩ },
      createCalls := [] }
    (GoError.other 1 "db timeout") (by decide) rfl).1

/-- C12: success and `CreatedAt` autofill.  For a valid input for which the
repository returns a book `b` and no error, `CreateBook` returns a book with no
error whose `ID`, `Title` and `Author` are those of `b`; its `CreatedAt` is that
of `b` when that is not the zero time, and it is `now`, the value of
`time.Now()` (not the zero time), exactly when `b.CreatedAt` is the zero time. -/
theorem CreateBook_success_autofill {σ : Type} (r : BookRepository σ) (now : Time)
    (inp : CreateBookInput) (w : World σ) (b : Book)
    (hvalid : TrimSpace inp.Title ≠ "" ∧ TrimSpace inp.Author ≠ "")
    (herr : (r inp w.repo).1.err = none) (hbook : (r inp w.repo).1.book = some b)
    (hnow : now.IsZero = false) :
    ∃ got : Book, (CreateBook r now inp w).1 = Outcome.ret (some got) none
      ∧ got.ID = b.ID ∧ got.Title = b.Title ∧ got.Author = b.Author
      ∧ (b.CreatedAt.IsZero = false → got.CreatedAt = b.CreatedAt)
      ∧ (b.CreatedAt.IsZero = true → got.CreatedAt = now)
      ∧ got.CreatedAt.IsZero = false := by
  rw [CreateBook_of_valid r now inp w hvalid, herr, hbook]
  cases hz : b.CreatedAt.IsZero with
  | true =>
    refine ⟨{ b with CreatedAt := now }, ?_, rfl, rfl, rfl, ?_, ?_, hnow⟩
    · simp [hz]
    · intro h; cases h
    · intro _; rfl
  | false =>
    refine ⟨b, ?_, rfl, rfl, rfl, ?_, ?_, hz⟩
    · simp [hz]
    · intro _; rfl
    · intro h; cases h

theorem CreateBook_success_autofill_witness :
    ∃ got : Book,
      (CreateBook stubRepo.Create ⟨63896731200000000000⟩
          ⟨"The Pragmatic Programmer", "Andrew Hunt"⟩
          { repo := { returnBook := some ⟨7, "The Pragmatic Programmer", "Andrew Hunt", ⟨0⟩⟩,
                      returnErr := none, called := false, lastIn := ⟨"", ""⟩ },
            createCalls := [] }).1 = Outcome.ret (some got) none
        ∧ got.ID = 7 ∧ got.CreatedAt = ⟨63896731200000000000⟩ := by
  obtain ⟨got, h1, h2, _, _, _, h6, _⟩ :=
    CreateBook_success_autofill stubRepo.Create ⟨63896731200000000000⟩
      ⟨"The Pragmatic Programmer", "Andrew Hunt"⟩
      { repo := { returnBook := some ⟨7, "The Pragmatic Programmer", "Andrew Hunt", ⟨0⟩⟩,
                  returnErr := none, called := false, lastIn := ⟨"", ""⟩ },
        createCalls := [] }
      ⟨7, "The Pragmatic Programmer", "Andrew Hunt", ⟨0⟩⟩ (by decide) rfl rfl (by decide)
  exact ⟨got, h1, h2, h6 (by decide)⟩

end Usecase

namespace Invoice

/-! ## Totality, determinism and sign of the results -/

theorem RoundPercent_isInt64 (amount pct : Int) : isInt64 (RoundPercent amount pct) := by
  unfold RoundPercent
  split
  · unfold isInt64 minInt64 maxInt64; decide
  · exact wrap64_isInt64 _

theorem foldl_subtotalStep_isInt64 (items : List Item) (acc : Int) (h : isInt64 acc) :
    isInt64 (items.foldl subtotalStep acc) := by
  induction items generalizing acc with
  | nil => exact h
  | cons it rest ih =>
    rw [List.foldl_cons]
    apply ih
    unfold subtotalStep
    split
    · exact h
    · exact wrap64_isInt64 _

theorem subtotalLoop_isInt64 (items : List Item) : isInt64 (subtotalLoop items) :=
  foldl_subtotalStep_isInt64 items 0 (by unfold isInt64 minInt64 maxInt64; decide)

theorem taxBase_nonneg (subtotal discount : Int) : 0 ≤ taxBase subtotal discount := by
  unfold taxBase
  simp only []
  split
  · exact le_refl 0
  · rename_i h; exact not_lt.mp h

/-- C15: both operations are total and yield `int64` values with no error case.
`RoundPercent` returns a value in the `int64` range for every amount and
percentage (its only division is by the constant 100), all four fields of
`CalculateTotals` are in the `int64` range for every item list and every pair of
rates, and for the empty list all four fields are 0. -/
theorem calculator_total (items : List Item) (amount pct discountPct taxPct : Int) :
    isInt64 (RoundPercent amount pct)
      ∧ (isInt64 (CalculateTotals items discountPct taxPct).Subtotal
        ∧ isInt64 (CalculateTotals items discountPct taxPct).Discount
        ∧ isInt64 (CalculateTotals items discountPct taxPct).Tax
        ∧ isInt64 (CalculateTotals items discountPct taxPct).Total)
      ∧ CalculateTotals [] discountPct taxPct = ⟨0, 0, 0, 0⟩ := by
  refine ⟨RoundPercent_isInt64 _ _, ⟨subtotalLoop_isInt64 items, RoundPercent_isInt64 _ _,
    RoundPercent_isInt64 _ _, wrap64_isInt64 _⟩, ?_⟩
  have h0 : ∀ p : Int, RoundPercent 0 p = 0 := fun p => by simp [RoundPercent]
  have hs : subtotalLoop [] = 0 := rfl
  have htb : taxBase 0 0 = 0 := by decide
  have htot : add64 (sub64 0 0) 0 = 0 := by decide
  simp only [CalculateTotals, hs, h0, htb, htot]

theorem foldl_rangeBody (pre rest : List Item) (acc : Int) :
    (List.range' pre.length rest.length).foldl rangeBody (acc, pre ++ rest)
      = (rest.foldl subtotalStep acc, pre ++ rest) := by
  induction rest generalizing pre acc with
  | nil => simp [List.range']
  | cons it rest ih =>
    have hget : (pre ++ it :: rest)[pre.length]? = some it := by
      rw [List.getElem?_append_right (le_refl _)]
      simp
    have hbody : rangeBody (acc, pre ++ it :: rest) pre.length
        = (subtotalStep acc it, pre ++ it :: rest) := by
      simp only [rangeBody, hget]
    have hsplit : pre ++ it :: rest = (pre ++ [it]) ++ rest := by simp
    have hlen : pre.length + 1 = (pre ++ [it]).length := by simp
    rw [List.length_cons, List.range'_succ, List.foldl_cons, hbody, List.foldl_cons, hsplit,
      hlen]
    exact ih (pre ++ [it]) (subtotalStep acc it)

theorem subtotalLoopMem_eq (mem : List Item) :
    subtotalLoopMem mem = (subtotalLoop mem, mem) := by
  have h := foldl_rangeBody [] mem 0
  simpa [subtotalLoopMem, subtotalLoop, List.range_eq_range'] using h

/-- C16: `CalculateTotals` is deterministic and leaves the item list alone.  Run
on the memory holding the items, the call returns that memory unchanged; a
second call with the same rates on the memory the first call left returns the
same `Totals`, all four fields equal; and the `Totals` are those of
`CalculateTotals` on the list. -/
theorem CalculateTotals_repeatable (mem : List Item) (discountPct taxPct : Int) :
    (CalculateTotalsMem mem discountPct taxPct).2 = mem
      ∧ (CalculateTotalsMem (CalculateTotalsMem mem discountPct taxPct).2 discountPct taxPct).1
          = (CalculateTotalsMem mem discountPct taxPct).1
      ∧ ((CalculateTotalsMem (CalculateTotalsMem mem discountPct taxPct).2
              discountPct taxPct).1.Subtotal
            = (CalculateTotalsMem mem discountPct taxPct).1.Subtotal
          ∧ (CalculateTotalsMem (CalculateTotalsMem mem discountPct taxPct).2
              discountPct taxPct).1.Discount
            = (CalculateTotalsMem mem discountPct taxPct).1.Discount
          ∧ (CalculateTotalsMem (CalculateTotalsMem mem discountPct taxPct).2
              discountPct taxPct).1.Tax
            = (CalculateTotalsMem mem discountPct taxPct).1.Tax
          ∧ (CalculateTotalsMem (CalculateTotalsMem mem discountPct taxPct).2
              discountPct taxPct).1.Total
            = (CalculateTotalsMem mem discountPct taxPct).1.Total)
      ∧ (CalculateTotalsMem mem discountPct taxPct).1
          = CalculateTotals mem discountPct taxPct := by
  have hmem : (CalculateTotalsMem mem discountPct taxPct).2 = mem := by
    simp only [CalculateTotalsMem, subtotalLoopMem_eq]
  have hval : (CalculateTotalsMem mem discountPct taxPct).1
      = CalculateTotals mem discountPct taxPct := by
    simp only [CalculateTotalsMem, subtotalLoopMem_eq, CalculateTotals]
  refine ⟨hmem, ?_, ?_, hval⟩
  · rw [hmem]
  · rw [hmem]
    exact ⟨rfl, rfl, rfl, rfl⟩

example :
    CalculateTotalsMem [⟨3, 1999⟩, ⟨-1, 2000⟩, ⟨1, 505⟩] 10 11
      = (⟨6502, 650, 644, 6496⟩, [⟨3, 1999⟩, ⟨-1, 2000⟩, ⟨1, 505⟩]) := by decide

theorem RoundPercent_bounds_of_pct_le_100 {amount pct : Int} (ha : 0 ≤ amount)
    (hp : pct ≤ 100) (hov : amount * pct + 50 ≤ maxInt64) :
    0 ≤ RoundPercent amount pct ∧ RoundPercent amount pct ≤ amount := by
  rcases le_or_lt pct 0 with hneg | hpos
  · rw [RoundPercent_of_nonpos_pct hneg]; exact ⟨le_refl 0, ha⟩
  · rw [RoundPercent_of_nonneg ha (le_of_lt hpos) hov]
    have hle : amount * pct ≤ amount * 100 := mul_le_mul_of_nonneg_left hp ha
    have hx : 0 ≤ amount * pct := mul_nonneg ha (le_of_lt hpos)
    constructor <;> omega

theorem RoundPercent_ge_of_pct_ge_100 {amount pct : Int} (ha : 0 ≤ amount)
    (hp : 100 ≤ pct) (hov : amount * pct + 50 ≤ maxInt64) :
    amount ≤ RoundPercent amount pct ∧ RoundPercent amount pct ≤ maxInt64 := by
  rw [RoundPercent_of_nonneg ha (by omega) hov]
  have hle : amount * 100 ≤ amount * pct := mul_le_mul_of_nonneg_left hp ha
  unfold maxInt64 at *
  constructor <;> omega

theorem RoundPercent_nonneg_any_pct {amount pct : Int} (ha : 0 ≤ amount)
    (hov : amount * pct + 50 ≤ maxInt64) : 0 ≤ RoundPercent amount pct := by
  rcases le_or_lt pct 0 with hneg | hpos
  · rw [RoundPercent_of_nonpos_pct hneg]
  · exact RoundPercent_nonneg_of_nonneg ha (le_of_lt hpos) hov

/-- C17: a discount percentage of 100 or more zeroes the tax.  With
`discountPct >= 100` and no overflow (the valid sum and
`validSum * discountPct + 50` fit in `int64`), for every `taxPct` the result has
`Discount >= Subtotal`, `Tax = 0`, `Total = Subtotal - Discount` and
`Total <= 0`. -/
theorem CalculateTotals_full_discount_zero_tax (items : List Item) (discountPct taxPct : Int)
    (hd : 100 ≤ discountPct) (hsum : validSum items ≤ maxInt64)
    (hov : validSum items * discountPct + 50 ≤ maxInt64) :
    (CalculateTotals items discountPct taxPct).Subtotal
        ≤ (CalculateTotals items discountPct taxPct).Discount
      ∧ (CalculateTotals items discountPct taxPct).Tax = 0
      ∧ (CalculateTotals items discountPct taxPct).Total
        = (CalculateTotals items discountPct taxPct).Subtotal
          - (CalculateTotals items discountPct taxPct).Discount
      ∧ (CalculateTotals items discountPct taxPct).Total ≤ 0 := by
  have hs : subtotalLoop items = validSum items := subtotalLoop_exact items hsum
  have hnn : 0 ≤ validSum items := validSum_nonneg items
  have hdisc := RoundPercent_ge_of_pct_ge_100 hnn hd hov
  have hsub : sub64 (validSum items) (RoundPercent (validSum items) discountPct)
      = validSum items - RoundPercent (validSum items) discountPct := by
    apply sub64_of_isInt64
    unfold isInt64 minInt64
    unfold maxInt64 at *
    constructor <;> omega
  have htb : taxBase (validSum items) (RoundPercent (validSum items) discountPct) = 0 := by
    simp only [taxBase, hsub]
    split
    · rfl
    · omega
  have htax : RoundPercent 0 taxPct = 0 := by simp [RoundPercent]
  have htot : add64 (validSum items - RoundPercent (validSum items) discountPct) 0
      = validSum items - RoundPercent (validSum items) discountPct := by
    have h := @add64_of_isInt64 (validSum items - RoundPercent (validSum items) discountPct) 0
      (by
        unfold isInt64 minInt64
        unfold maxInt64 at *
        constructor <;> omega)
    rw [h, add_zero]
  simp only [CalculateTotals, hs, htb, htax, hsub, htot]
  exact ⟨hdisc.1, trivial, trivial, by omega⟩

theorem CalculateTotals_full_discount_zero_tax_witness :
    (CalculateTotals [⟨1, 333⟩] 150 10).Tax = 0
      ∧ (CalculateTotals [⟨1, 333⟩] 150 10).Total ≤ 0 :=
  have h := CalculateTotals_full_discount_zero_tax [⟨1, 333⟩] 150 10 (by decide) (by decide)
    (by decide)
  ⟨h.2.1, h.2.2.2⟩

/-- C18: the 64-bit computation is exact in the safe range and unchecked beyond
it.  For `amount >= 0` and `pct >= 0` with `amount * pct + 50 <= 2^63 - 1` the
wrapping `RoundPercent` equals the same formula over unbounded integers; and
there are an `int64` amount `> 0` and percentage `> 0` with
`amount * pct + 50 > 2^63 - 1` at which the two differ. -/
theorem RoundPercent_exact_in_safe_range (amount pct : Int) (ha : 0 ≤ amount) (hp : 0 ≤ pct)
    (hov : amount * pct + 50 ≤ maxInt64) :
    RoundPercent amount pct = RoundPercentUnbounded amount pct
      ∧ ∃ a p : Int, 0 < a ∧ 0 < p ∧ isInt64 a ∧ isInt64 p ∧ maxInt64 < a * p + 50
          ∧ RoundPercent a p ≠ RoundPercentUnbounded a p := by
  constructor
  · rw [RoundPercent_of_nonneg ha hp hov]
    have hx : 0 ≤ amount * pct := mul_nonneg ha hp
    unfold RoundPercentUnbounded
    split
    · rename_i h
      have h0 : amount * pct = 0 := by
        rcases h with h | h
        · have : pct = 0 := le_antisymm h hp
          simp [this]
        · simp [h]
      rw [h0]
      decide
    · exact (Int.tdiv_eq_ediv (by omega) (by decide)).symm
  · exact ⟨100000000000000000, 100, by decide, by decide, by decide, by decide, by decide,
      by decide⟩

theorem RoundPercent_exact_in_safe_range_witness :
    RoundPercent 333 15 = RoundPercentUnbounded 333 15 :=
  (RoundPercent_exact_in_safe_range 333 15 (by decide) (by decide) (by decide)).1

/-- C20: sign invariant.  Without overflow (the valid sum, both shifted products
and the final sum fit in `int64`), for every pair of rates, negative ones
included, `Subtotal`, `Discount` and `Tax` are not negative and both amounts
handed to `RoundPercent` (the subtotal and the tax base) are not negative; if
also `discountPct <= 100` then `Total >= Subtotal - Discount >= 0`. -/
theorem CalculateTotals_sign_invariant (items : List Item) (discountPct taxPct : Int)
    (hsum : validSum items ≤ maxInt64)
    (hovd : validSum items * discountPct + 50 ≤ maxInt64)
    (hovt : taxBase (CalculateTotals items discountPct taxPct).Subtotal
        (CalculateTotals items discountPct taxPct).Discount * taxPct + 50 ≤ maxInt64)
    (hovtot : (CalculateTotals items discountPct taxPct).Subtotal
        - (CalculateTotals items discountPct taxPct).Discount
        + (CalculateTotals items discountPct taxPct).Tax ≤ maxInt64) :
    0 ≤ (CalculateTotals items discountPct taxPct).Subtotal
      ∧ 0 ≤ (CalculateTotals items discountPct taxPct).Discount
      ∧ 0 ≤ (CalculateTotals items discountPct taxPct).Tax
      ∧ 0 ≤ taxBase (CalculateTotals items discountPct taxPct).Subtotal
          (CalculateTotals items discountPct taxPct).Discount
      ∧ (discountPct ≤ 100 →
          (CalculateTotals items discountPct taxPct).Subtotal
              - (CalculateTotals items discountPct taxPct).Discount
            ≤ (CalculateTotals items discountPct taxPct).Total
          ∧ 0 ≤ (CalculateTotals items discountPct taxPct).Subtotal
              - (CalculateTotals items discountPct taxPct).Discount) := by
  have hs : subtotalLoop items = validSum items := subtotalLoop_exact items hsum
  have hnn : 0 ≤ validSum items := validSum_nonneg items
  simp only [CalculateTotals, hs] at hovt hovtot ⊢
  have hD : 0 ≤ RoundPercent (validSum items) discountPct :=
    RoundPercent_nonneg_any_pct hnn hovd
  have hTB := taxBase_nonneg (validSum items) (RoundPercent (validSum items) discountPct)
  have hT : 0 ≤ RoundPercent
      (taxBase (validSum items) (RoundPercent (validSum items) discountPct)) taxPct :=
    RoundPercent_nonneg_any_pct hTB hovt
  refine ⟨hnn, hD, hT, hTB, ?_⟩
  intro hd
  have hle := (RoundPercent_bounds_of_pct_le_100 hnn hd hovd).2
  have hsub : sub64 (validSum items) (RoundPercent (validSum items) discountPct)
      = validSum items - RoundPercent (validSum items) discountPct := by
    apply sub64_of_isInt64
    unfold isInt64 minInt64
    unfold maxInt64 at *
    constructor <;> omega
  rw [hsub]
  have hadd : add64 (validSum items - RoundPercent (validSum items) discountPct)
      (RoundPercent (taxBase (validSum items) (RoundPercent (validSum items) discountPct))
        taxPct)
      = validSum items - RoundPercent (validSum items) discountPct
        + RoundPercent (taxBase (validSum items) (RoundPercent (validSum items) discountPct))
            taxPct := by
    apply add64_of_isInt64
    unfold isInt64 minInt64
    unfold maxInt64 at *
    constructor <;> omega
  rw [hadd]
  constructor <;> omega

theorem CalculateTotals_sign_invariant_witness :
    0 ≤ (CalculateTotals [⟨3, 1999⟩, ⟨1, 505⟩] (-10) 11).Discount
      ∧ 0 ≤ (CalculateTotals [⟨3, 1999⟩, ⟨1, 505⟩] (-10) 11).Tax
      ∧ 0 ≤ (CalculateTotals [⟨3, 1999⟩, ⟨1, 505⟩] (-10) 11).Subtotal
          - (CalculateTotals [⟨3, 1999⟩, ⟨1, 505⟩] (-10) 11).Discount :=
  have h := CalculateTotals_sign_invariant [⟨3, 1999⟩, ⟨1, 505⟩] (-10) 11 (by decide)
    (by decide) (by decide) (by decide)
  ⟨h.2.1, h.2.2.1, (h.2.2.2.2 (by decide)).2⟩

end Invoice

namespace Http

open Usecase

/-! ## The HTTP handler -/

/-- C19: the handler's response is a function of the outcome.  A body that
`BodyParser` cannot decode gives 400 and leaves the world as it was (the use case
is not called); a use-case error equal to `ErrValidation` gives 422 with that
error's message; any other use-case error gives 500 with the message
`"internal error"`; a return without error gives 201 with the returned book as
body. -/
theorem BookHandler_status_by_outcome {ρ ω : Type} (BodyParser : ρ → Option CreateBookInput)
    (uc : BookUsecase ω) (request : ρ) (w : HandlerWorld ω) :
    (BodyParser request = none →
        BookHandler.CreateBook BodyParser uc request w
          = (HandlerOutcome.respond ⟨400, Body.errorMap "invalid JSON body"⟩, w))
      ∧ (∀ (req : CreateBookInput) (book : Option Book), BodyParser request = some req →
          (uc req w.uc).1 = Outcome.ret book (some GoError.ErrValidation) →
          (BookHandler.CreateBook BodyParser uc request w).1
            = HandlerOutcome.respond ⟨422, Body.errorMap GoError.ErrValidation.Error⟩)
      ∧ (∀ (req : CreateBookInput) (book : Option Book) (e : GoError),
          BodyParser request = some req → (uc req w.uc).1 = Outcome.ret book (some e) →
          e ≠ GoError.ErrValidation →
          (BookHandler.CreateBook BodyParser uc request w).1
            = HandlerOutcome.respond ⟨500, Body.errorMap "internal error"⟩)
      ∧ (∀ (req : CreateBookInput) (book : Option Book), BodyParser request = some req →
          (uc req w.uc).1 = Outcome.ret book none →
          (BookHandler.CreateBook BodyParser uc request w).1
            = HandlerOutcome.respond ⟨201, Body.book book⟩) := by
  refine ⟨?_, ?_, ?_, ?_⟩
  · intro hp
    simp only [BookHandler.CreateBook, hp, StatusBadRequest]
  · intro req book hp hu
    simp only [BookHandler.CreateBook, hp, hu, StatusUnprocessableEntity, if_true]
  · intro req book e hp hu he
    simp only [BookHandler.CreateBook, hp, hu, StatusInternalServerError, if_neg he]
  · intro req book hp hu
    simp only [BookHandler.CreateBook, hp, hu, StatusCreated]

example : GoError.ErrValidation.Error = "validation error" := rfl

theorem BookHandler_status_by_outcome_witness :
    BookHandler.CreateBook id stubUsecase (none : Option CreateBookInput)
        (stubHandlerWorld none none)
      = (HandlerOutcome.respond ⟨400, Body.errorMap "invalid JSON body"⟩,
          stubHandlerWorld none none)
    ∧ (BookHandler.CreateBook id stubUsecase (some ⟨"", "Anyone"⟩)
        (stubHandlerWorld none none)).1
      = HandlerOutcome.respond ⟨422, Body.errorMap "validation error"⟩
    ∧ (BookHandler.CreateBook id stubUsecase (some ⟨"Dune", "Frank Herbert"⟩)
        (stubHandlerWorld none (some (GoError.other 1 "db timeout")))).1
      = HandlerOutcome.respond ⟨500, Body.errorMap "internal error"⟩
    ∧ (BookHandler.CreateBook id stubUsecase (some ⟨"Clean Architecture", "Uncle Bob"⟩)
        (stubHandlerWorld (some ⟨42, "Clean Architecture", "Uncle Bob", ⟨5⟩⟩) none)).1
      = HandlerOutcome.respond
          ⟨201, Body.book (some ⟨42, "Clean Architecture", "Uncle Bob", ⟨5⟩⟩)⟩ :=
  ⟨(BookHandler_status_by_outcome id stubUsecase none (stubHandlerWorld none none)).1 rfl,
    (BookHandler_status_by_outcome id stubUsecase (some ⟨"", "Anyone"⟩)
      (stubHandlerWorld none none)).2.1 ⟨"", "Anyone"⟩ none rfl (by decide),
    (BookHandler_status_by_outcome id stubUsecase (some ⟨"Dune", "Frank Herbert"⟩)
      (stubHandlerWorld none (some (GoError.other 1 "db timeout")))).2.2.1
      ⟨"Dune", "Frank Herbert"⟩ none (GoError.other 1 "db timeout") rfl (by decide)
      (by decide),
    (BookHandler_status_by_outcome id stubUsecase (some ⟨"Clean Architecture", "Uncle Bob"⟩)
      (stubHandlerWorld (some ⟨42, "Clean Architecture", "Uncle Bob", ⟨5⟩⟩) none)).2.2.2
      ⟨"Clean Architecture", "Uncle Bob"⟩ (some ⟨42, "Clean Architecture", "Uncle Bob", ⟨5⟩⟩)
      rfl (by decide)⟩

end Http

namespace DateLib

/-! ## Date formatting -/

example : FormatDateLong "2025-10-20" = ("20 October 2025", none) := by decide
example : FormatDateLong "2024-01-05" = ("5 January 2024", none) := by decide
example : FormatDateLong "2024-02-30" = ("", some ParseError.dayOutOfRange) := by decide
example : FormatDateLong "2024-02-29" = ("29 February 2024", none) := by decide
example : FormatDateLong "2024-1-05" = ("", some ParseError.bad) := by decide
example : renderISO 2024 1 5 = "2024-01-05" := by decide

theorem digitChar_isDigit :
    ∀ k : Nat, k < 10 → isDigit (Nat.digitChar k) = true ∧ digitVal (Nat.digitChar k) = k := by
  decide

theorem digitChar_digitVal (c : Char) (h : isDigit c = true) :
    digitVal c < 10 ∧ Nat.digitChar (digitVal c) = c := by
  simp only [isDigit, Bool.and_eq_true, decide_eq_true_eq] at h
  have hc : c = Char.ofNat c.toNat := (Char.ofNat_toNat c).symm
  have hcases : c.toNat = 48 ∨ c.toNat = 49 ∨ c.toNat = 50 ∨ c.toNat = 51 ∨ c.toNat = 52
      ∨ c.toNat = 53 ∨ c.toNat = 54 ∨ c.toNat = 55 ∨ c.toNat = 56 ∨ c.toNat = 57 := by
    omega
  rcases hcases with h0 | h0 | h0 | h0 | h0 | h0 | h0 | h0 | h0 | h0 <;>
    (rw [h0] at hc; subst hc; decide)

theorem parseLongYear_pad4 (y : Nat) (hy : y ≤ 9999) (rest : List Char) :
    parseLongYear (pad4 y ++ rest) = some (y, rest) := by
  have h1 := digitChar_isDigit (y / 1000) (by omega)
  have h2 := digitChar_isDigit (y / 100 % 10) (by omega)
  have h3 := digitChar_isDigit (y / 10 % 10) (by omega)
  have h4 := digitChar_isDigit (y % 10) (by omega)
  simp only [pad4, List.cons_append, List.nil_append, parseLongYear, h1.1, h2.1, h3.1, h4.1,
    h1.2, h2.2, h3.2, h4.2, Bool.and_self, if_true]
  congr 2
  omega

theorem getnum_pad2 (n : Nat) (hn : n ≤ 99) (rest : List Char) :
    getnum (pad2 n ++ rest) true = some (n, rest) := by
  have h1 := digitChar_isDigit (n / 10) (by omega)
  have h2 := digitChar_isDigit (n % 10) (by omega)
  simp only [pad2, List.cons_append, List.nil_append, getnum, h1.1, h2.1, h1.2, h2.2, if_true]
  congr 2
  omega

theorem parseLongYear_inv {s rest : List Char} {y : Nat}
    (h : parseLongYear s = some (y, rest)) : y ≤ 9999 ∧ s = pad4 y ++ rest := by
  match s, h with
  | c0 :: c1 :: c2 :: c3 :: r, h =>
    simp only [parseLongYear] at h
    split at h
    · rename_i hd
      simp only [Bool.and_eq_true] at hd
      obtain ⟨⟨⟨d0, d1⟩, d2⟩, d3⟩ := hd
      have e0 := digitChar_digitVal c0 d0
      have e1 := digitChar_digitVal c1 d1
      have e2 := digitChar_digitVal c2 d2
      have e3 := digitChar_digitVal c3 d3
      simp only [Option.some.injEq, Prod.mk.injEq] at h
      obtain ⟨hy, hr⟩ := h
      subst hr
      have q0 : y / 1000 = digitVal c0 := by omega
      have q1 : y / 100 % 10 = digitVal c1 := by omega
      have q2 : y / 10 % 10 = digitVal c2 := by omega
      have q3 : y % 10 = digitVal c3 := by omega
      refine ⟨by omega, ?_⟩
      simp only [pad4, q0, q1, q2, q3, e0.2, e1.2, e2.2, e3.2, List.cons_append,
        List.nil_append]
    · cases h

theorem getnum_inv {s rest : List Char} {n : Nat}
    (h : getnum s true = some (n, rest)) : n ≤ 99 ∧ s = pad2 n ++ rest := by
  match s, h with
  | c0 :: c1 :: r, h =>
    simp only [getnum] at h
    split at h
    · rename_i d0
      split at h
      · rename_i d1
        have e0 := digitChar_digitVal c0 d0
        have e1 := digitChar_digitVal c1 d1
        simp only [Option.some.injEq, Prod.mk.injEq] at h
        obtain ⟨hn, hr⟩ := h
        subst hr
        have q0 : n / 10 = digitVal c0 := by omega
        have q1 : n % 10 = digitVal c1 := by omega
        refine ⟨by omega, ?_⟩
        simp only [pad2, q0, q1, e0.2, e1.2, List.cons_append, List.nil_append]
      · simp at h
    · cases h
  | [c0], h =>
    simp only [getnum] at h
    split at h <;> simp at h

theorem skipDash_inv {s rest : List Char} (h : skipDash s = some rest) : s = '-' :: rest := by
  match s, h with
  | c :: r, h =>
    simp only [skipDash] at h
    split at h
    · rename_i hc
      simp only [Option.some.injEq] at h
      rw [hc, h]
    · cases h

theorem daysIn_le (m y : Nat) : daysIn m y ≤ 31 := by
  unfold daysIn
  split
  · split <;> omega
  · split <;> omega

theorem Parse_renderISO (y m d : Nat) (h : isCalendarDate y m d) :
    Parse (renderISO y m d).data = Except.ok ⟨y, m, d⟩ := by
  obtain ⟨hy, hm1, hm12, hd1, hdn⟩ := h
  have hd31 := daysIn_le m y
  have hmonth : ¬ (m = 0 ∨ 12 < m) := by omega
  have hday : ¬ (d < 1 ∨ daysIn m y < d) := by omega
  have hskip : ∀ r : List Char, skipDash ('-' :: r) = some r := fun r => by simp [skipDash]
  have hg : getnum (pad2 d) true = some (d, []) := by
    have := getnum_pad2 d (by omega) []
    simpa using this
  simp only [renderISO, Parse, parseLongYear_pad4 y hy, hskip, getnum_pad2 m (by omega), hg,
    if_neg hmonth, if_neg hday, ne_eq, not_true_eq_false, if_false]

theorem Parse_ok_inv {s : List Char} {t : Date} (h : Parse s = Except.ok t) :
    isCalendarDate t.year t.month t.day ∧ s = (renderISO t.year t.month t.day).data := by
  unfold Parse at h
  split at h
  · cases h
  · rename_i year v1 hyear
    split at h
    · cases h
    · rename_i v2 hs1
      split at h
      · cases h
      · rename_i month v3 hmonth
        split at h
        · cases h
        · rename_i hmr
          split at h
          · cases h
          · rename_i v4 hs2
            split at h
            · cases h
            · rename_i day v5 hday
              split at h
              · cases h
              · rename_i hv5
                split at h
                · cases h
                · rename_i hdr
                  simp only [Except.ok.injEq] at h
                  subst h
                  have hy := parseLongYear_inv hyear
                  have hm := getnum_inv hmonth
                  have hd := getnum_inv hday
                  have e1 := skipDash_inv hs1
                  have e2 := skipDash_inv hs2
                  have hv5e : v5 = [] := by simpa using hv5
                  have hc : isCalendarDate year month day :=
                    ⟨hy.1, by omega, by omega, by omega, by omega⟩
                  refine ⟨hc, ?_⟩
                  rw [hy.2, e1, hm.2, e2, hd.2, hv5e]
                  simp [renderISO]

theorem isCalendarDate_iff_Parse_ok (s : String) :
    (∃ y m d : Nat, isCalendarDate y m d ∧ s = renderISO y m d)
      ↔ ∃ t : Date, Parse s.data = Except.ok t := by
  constructor
  · rintro ⟨y, m, d, hv, rfl⟩
    exact ⟨⟨y, m, d⟩, Parse_renderISO y m d hv⟩
  · rintro ⟨t, ht⟩
    have h := Parse_ok_inv ht
    refine ⟨t.year, t.month, t.day, h.1, ?_⟩
    cases s with
    | mk l => simp only at h; rw [h.2]

theorem dayText_no_leading_zero (d : Nat) (h1 : 1 ≤ d) (h31 : d ≤ 31) :
    (toString d).data.head? ≠ some '0' := by
  interval_cases d <;> decide

theorem Format_eq (y m d : Nat) (hy : y ≤ 9999) :
    Format ⟨y, m, d⟩ = toString d ++ " " ++ monthName m ++ " " ++ String.mk (pad4 y) := by
  have hyear : appendInt y 4 = pad4 y := by
    unfold appendInt
    rw [if_pos ⟨rfl, by omega⟩]
  have hday : appendInt d 0 = (toString d).data := by
    unfold appendInt
    rw [if_neg (by omega)]
    simp [toString, Nat.repr, List.asString]
  apply String.ext
  simp [Format, hyear, hday, String.data_append]

/-- C13: every valid calendar date written as zero-padded `YYYY-MM-DD` is
formatted with no error as the day in decimal without a leading zero, a space,
the English month name, a space and the four digits of the year. -/
theorem FormatDateLong_valid_date (y m d : Nat) (h : isCalendarDate y m d) :
    FormatDateLong (renderISO y m d)
        = (toString d ++ " " ++ monthName m ++ " " ++ String.mk (pad4 y), none)
      ∧ (toString d).data.head? ≠ some '0'
      ∧ monthName m ∈ ["January", "February", "March", "April", "May", "June", "July",
          "August", "September", "October", "November", "December"] := by
  have hp := Parse_renderISO y m d h
  obtain ⟨hy, hm1, hm12, hd1, hdn⟩ := h
  have hd31 := daysIn_le m y
  refine ⟨?_, dayText_no_leading_zero d hd1 (by omega), ?_⟩
  · simp only [FormatDateLong, hp, Format_eq y m d hy]
  · interval_cases m <;> decide

theorem FormatDateLong_valid_date_witness :
    FormatDateLong "2024-01-05" = ("5 January 2024", none)
      ∧ FormatDateLong "2025-10-20" = ("20 October 2025", none) :=
  ⟨(FormatDateLong_valid_date 2024 1 5 (by decide)).1,
    (FormatDateLong_valid_date 2025 10 20 (by decide)).1⟩

/-- C14: bad input is rejected.  A string that is not the zero-padded
`YYYY-MM-DD` rendering of a real calendar date (a well-shaped impossible date
such as `2024-02-30` included) yields the empty string and a non-nil error. -/
theorem FormatDateLong_rejects_bad_input (s : String)
    (h : ¬ ∃ y m d : Nat, isCalendarDate y m d ∧ s = renderISO y m d) :
    ∃ err : ParseError, FormatDateLong s = ("", some err) := by
  rw [isCalendarDate_iff_Parse_ok] at h
  unfold FormatDateLong
  cases hp : Parse s.data with
  | error err => exact ⟨err, rfl⟩
  | ok t => exact absurd ⟨t, hp⟩ h

theorem FormatDateLong_rejects_bad_input_witness :
    ∃ err : ParseError, FormatDateLong "2024-02-30" = ("", some err) :=
  FormatDateLong_rejects_bad_input "2024-02-30"
    (by
      rw [isCalendarDate_iff_Parse_ok]
      rintro ⟨t, ht⟩
      have hp : Parse "2024-02-30".data = Except.error ParseError.dayOutOfRange := rfl
      rw [hp] at ht
      cases ht)

end DateLib

namespace Invoice

/-! ## Monotonicity and order independence -/

theorem RoundPercent_mono_amount {a b pct : Int} (ha : 0 ≤ a) (hab : a ≤ b)
    (hov : b * pct + 50 ≤ maxInt64) : RoundPercent a pct ≤ RoundPercent b pct := by
  rcases le_or_lt pct 0 with hneg | hpos
  · rw [RoundPercent_of_nonpos_pct hneg, RoundPercent_of_nonpos_pct hneg]
  · have hle : a * pct ≤ b * pct := mul_le_mul_of_nonneg_right hab (le_of_lt hpos)
    rw [RoundPercent_of_nonneg ha (le_of_lt hpos) (by omega),
      RoundPercent_of_nonneg (le_trans ha hab) (le_of_lt hpos) hov]
    omega

theorem RoundPercent_mono_pct {a p q : Int} (ha : 0 ≤ a) (hpq : p ≤ q)
    (hov : a * q + 50 ≤ maxInt64) : RoundPercent a p ≤ RoundPercent a q := by
  rcases le_or_lt p 0 with hneg | hpos
  · rw [RoundPercent_of_nonpos_pct hneg]
    exact RoundPercent_nonneg_any_pct ha hov
  · have hle : a * p ≤ a * q := mul_le_mul_of_nonneg_left hpq ha
    rw [RoundPercent_of_nonneg ha (le_of_lt hpos) (by omega),
      RoundPercent_of_nonneg ha (by omega) hov]
    omega

/-- C21: `RoundPercent` is monotone non-decreasing in each argument on the
non-negative domain, absent overflow.  For `0 <= a <= b` and every `pct` with
`b * pct + 50` within `int64`, `RoundPercent a pct <= RoundPercent b pct`; and
for `c >= 0` and `p <= q` with `c * q + 50` within `int64`,
`RoundPercent c p <= RoundPercent c q`. -/
theorem RoundPercent_monotone (a b pct c p q : Int)
    (ha : 0 ≤ a) (hab : a ≤ b) (hovb : b * pct + 50 ≤ maxInt64)
    (hc : 0 ≤ c) (hpq : p ≤ q) (hovq : c * q + 50 ≤ maxInt64) :
    RoundPercent a pct ≤ RoundPercent b pct ∧ RoundPercent c p ≤ RoundPercent c q :=
  ⟨RoundPercent_mono_amount ha hab hovb, RoundPercent_mono_pct hc hpq hovq⟩

theorem RoundPercent_monotone_witness :
    RoundPercent 283 10 ≤ RoundPercent 333 10 ∧ RoundPercent 333 (-5) ≤ RoundPercent 333 15 :=
  RoundPercent_monotone 283 333 10 333 (-5) 15 (by decide) (by decide) (by decide)
    (by decide) (by decide) (by decide)

theorem foldl_subtotalStep_wrap (items : List Item) (acc : Int) :
    wrap64 (items.foldl subtotalStep acc) = wrap64 (acc + validSum items) := by
  induction items generalizing acc with
  | nil => simp [validSum_nil]
  | cons it rest ih =>
    cases hv : it.valid with
    | false =>
      rw [List.foldl_cons, subtotalStep_of_not_valid hv, validSum_cons_not_valid hv]
      exact ih acc
    | true =>
      have hnot := (Item.valid_iff it).mp hv
      rw [List.foldl_cons, validSum_cons_valid hv, ih]
      simp only [subtotalStep, if_neg hnot, add64, mul64]
      generalize it.Qty * it.UnitPriceCents = x
      generalize validSum rest = v
      unfold wrap64
      omega

theorem subtotalLoop_eq_wrap (items : List Item) :
    subtotalLoop items = wrap64 (validSum items) := by
  have h := foldl_subtotalStep_wrap items 0
  rw [zero_add] at h
  rw [← h]
  exact (wrap64_of_isInt64 (subtotalLoop_isInt64 items)).symm

theorem validSum_perm {items items2 : List Item} (h : items.Perm items2) :
    validSum items = validSum items2 := by
  unfold validSum
  exact ((h.filter Item.valid).map _).sum_eq

theorem validSum_append (xs ys : List Item) :
    validSum (xs ++ ys) = validSum xs + validSum ys := by
  simp [validSum, List.filter_append, List.map_append, List.sum_append]

theorem subtotalLoop_append (xs ys : List Item) :
    subtotalLoop (xs ++ ys) = add64 (subtotalLoop xs) (subtotalLoop ys) := by
  rw [subtotalLoop_eq_wrap, subtotalLoop_eq_wrap xs, subtotalLoop_eq_wrap ys, validSum_append]
  generalize validSum xs = u
  generalize validSum ys = v
  unfold add64 wrap64
  omega

/-- C22: `CalculateTotals` does not depend on the order of the line items.  For
every permutation of the item list and every pair of rates the two calls return
the same `Totals`, also when the sum wraps; and the `Subtotal` of a
concatenation is the `int64` sum of the `Subtotal`s of the two lists, which is
their integer sum whenever that sum fits in `int64`. -/
theorem CalculateTotals_order_independent (items items2 xs ys : List Item)
    (discountPct taxPct : Int) (hperm : items.Perm items2) :
    CalculateTotals items discountPct taxPct = CalculateTotals items2 discountPct taxPct
      ∧ (CalculateTotals (xs ++ ys) discountPct taxPct).Subtotal
        = add64 (CalculateTotals xs discountPct taxPct).Subtotal
            (CalculateTotals ys discountPct taxPct).Subtotal
      ∧ (isInt64 ((CalculateTotals xs discountPct taxPct).Subtotal
            + (CalculateTotals ys discountPct taxPct).Subtotal) →
          (CalculateTotals (xs ++ ys) discountPct taxPct).Subtotal
            = (CalculateTotals xs discountPct taxPct).Subtotal
              + (CalculateTotals ys discountPct taxPct).Subtotal) := by
  have hloop : subtotalLoop items = subtotalLoop items2 := by
    rw [subtotalLoop_eq_wrap, subtotalLoop_eq_wrap items2, validSum_perm hperm]
  refine ⟨?_, ?_, ?_⟩
  · simp only [CalculateTotals, hloop]
  · simp only [CalculateTotals]
    exact subtotalLoop_append xs ys
  · intro hfit
    simp only [CalculateTotals] at hfit ⊢
    rw [subtotalLoop_append, add64_of_isInt64 hfit]

theorem CalculateTotals_order_independent_witness :
    CalculateTotals [⟨3, 1999⟩, ⟨2, -500⟩, ⟨1, 505⟩] 10 11
        = CalculateTotals [⟨1, 505⟩, ⟨3, 1999⟩, ⟨2, -500⟩] 10 11
      ∧ (CalculateTotals ([⟨3, 1999⟩] ++ [⟨1, 505⟩]) 10 11).Subtotal
        = (CalculateTotals [⟨3, 1999⟩] 10 11).Subtotal
          + (CalculateTotals [⟨1, 505⟩] 10 11).Subtotal :=
  have h := CalculateTotals_order_independent [⟨3, 1999⟩, ⟨2, -500⟩, ⟨1, 505⟩]
    [⟨1, 505⟩, ⟨3, 1999⟩, ⟨2, -500⟩] [⟨3, 1999⟩] [⟨1, 505⟩] 10 11 (by decide)
  ⟨h.1, h.2.2 (by decide)⟩

end Invoice
